import Mathlib

/-
Shallow embedding of the chat-completions request editor in
src/assets/js/app.js of evaluator-utils.github.io.

Conventions of the embedding:
* JS strings are Lean String (a structure over List Char); the helpers
  below operate on the underlying character lists.
* JS numbers are modelled as exact rationals.  The program filters out
  NaN and Infinity via Number.isFinite before a value is ever used, and
  every numeric comparison the program performs (range checks) gives the
  same verdict on the exact rational as on the rounded double, because
  the doubles produced by parsing a decimal literal are on the same side
  of the integer bounds 0, 1, 2, -2 as the exact decimal value.
* JSON values are the inductive Json below; JS objects are association
  lists in property-insertion order, property assignment is setKey
  (update in place when present, append when absent), matching JS
  semantics for non-integer-like keys.
* fallible JS code (throwing JSON.parse, thrown coercion errors) is
  modelled with Except String.  The exact wording of engine-generated
  SyntaxError messages is engine specific; stand-in messages are used.
  No claim depends on their wording.
-/

set_option allowUnsafeReducibility true
attribute [local semireducible] Rat.add Rat.mul Rat.sub Rat.div Rat.neg Rat.inv

namespace ChatCreate

/-- Whitespace predicate used to model both String.prototype.trim and the
regexp whitespace class of app.js (ASCII whitespace subset; the source
strings contain no exotic Unicode whitespace). -/
def isWSJS (c : Char) : Bool :=
  c = ' ' || c = '\t' || c = '\n' || c = '\r' || c = '\x0b' || c = '\x0c'

/-- Character-list core of String.prototype.trim: drop leading and
trailing whitespace. -/
def jsTrimAux (cs : List Char) : List Char :=
  ((cs.dropWhile isWSJS).reverse.dropWhile isWSJS).reverse

/-- trimOrEmpty of app.js line 121: (s or "").trim(). -/
def trimOrEmpty (s : String) : String := String.mk (jsTrimAux s.data)

/-- Split a character list at every occurrence of the separator, modelling
String.prototype.split with a single-character separator: the empty list
yields one empty segment, like "".split. -/
def splitChar (sep : Char) : List Char → List (List Char)
  | [] => [[]]
  | c :: rest =>
    let r := splitChar sep rest
    if c = sep then [] :: r
    else
      match r with
      | [] => [[c]]
      | seg :: segs => (c :: seg) :: segs

/-- String.prototype.split on a newline, as used by the stop-lines
coercion (app.js line 661). -/
def splitLines (s : String) : List String := (splitChar '\n' s.data).map String.mk

/-- JSON values.  Objects carry their properties in insertion order. -/
inductive Json where
  | null : Json
  | bool : Bool → Json
  | num : ℚ → Json
  | str : String → Json
  | arr : List Json → Json
  | obj : List (String × Json) → Json

/-- isPlainObject of app.js line 161: typeof v is object, v is not null
and not an array.  On the Json model only the obj constructor passes. -/
def isPlainObject : Json → Bool
  | .obj _ => true
  | _ => false

/-- JS property read obj[k]: association lists built by setKey have unique
keys, so the first match is the binding. -/
def getKey (m : List (String × Json)) (k : String) : Option Json :=
  (m.find? (fun p => p.1 = k)).map (fun p => p.2)

/-- JS property assignment obj[k] = v: update the existing binding in
place (keeping its position) or append a new one, matching JS property
order semantics for string keys. -/
def setKey (m : List (String × Json)) (k : String) (v : Json) : List (String × Json) :=
  if m.any (fun p => p.1 = k) then
    m.map (fun p => if p.1 = k then (k, v) else p)
  else m ++ [(k, v)]

/-- Object.assign(target, source): assign every property of the source
into the target, in source property order. -/
def assignAll (m : List (String × Json)) (kvs : List (String × Json)) : List (String × Json) :=
  kvs.foldl (fun acc p => setKey acc p.1 p.2) m

/-- Value of the last binding of a key in an association list; used to
state lookup lemmas about assignAll (in a list with duplicate keys the
last assignment wins, as in JS). -/
def lookupLast (m : List (String × Json)) (k : String) : Option Json :=
  m.foldl (fun acc p => if p.1 = k then some p.2 else acc) none

/-- First defined option, used to state precedence of merged lookups. -/
def firstSome (a b : Option Json) : Option Json :=
  match a with
  | some v => some v
  | none => b

/-- Decimal digits to a natural number. -/
def digitsToNat (ds : List Char) : Nat := ds.foldl (fun a c => a * 10 + (c.toNat - 48)) 0

/-- Model of the JS Number() conversion on an already-trimmed non-empty
string, restricted to decimal literals (sign, integer part, fraction,
exponent).  Hexadecimal/octal/binary literals and the Infinity literal
are not modelled: the former do not occur in this program's inputs of
interest, and the latter is rejected by Number.isFinite downstream just
as the model's none is. -/
def jsNumber (cs : List Char) : Option ℚ :=
  let sp : ℚ × List Char :=
    match cs with
    | '+' :: r => (1, r)
    | '-' :: r => (-1, r)
    | _ => (1, cs)
  let sgn := sp.1
  let cs1 := sp.2
  let ip := cs1.takeWhile Char.isDigit
  let rest1 := cs1.drop ip.length
  let fr : Option (List Char) × List Char :=
    match rest1 with
    | '.' :: r => (some (r.takeWhile Char.isDigit), r.drop (r.takeWhile Char.isDigit).length)
    | _ => (none, rest1)
  let fp := fr.1
  let rest2 := fr.2
  let hasDigits : Bool :=
    (!ip.isEmpty) || (match fp with | some f => !f.isEmpty | none => false)
  let mantissa : ℚ :=
    (digitsToNat ip : ℚ) +
      (match fp with
       | some f => (digitsToNat f : ℚ) / (10 : ℚ) ^ f.length
       | none => 0)
  if hasDigits then
    match rest2 with
    | 'e' :: r | 'E' :: r =>
      let ep : ℤ × List Char :=
        match r with
        | '+' :: rr => (1, rr)
        | '-' :: rr => (-1, rr)
        | _ => (1, r)
      let ed := ep.2.takeWhile Char.isDigit
      if ed.isEmpty || !(ep.2.drop ed.length).isEmpty then none
      else some (sgn * mantissa * (10 : ℚ) ^ (ep.1 * (digitsToNat ed : ℤ)))
    | [] => some (sgn * mantissa)
    | _ => none
  else none

/-- parseFloatOpt of app.js lines 127-132: trim, empty gives undefined,
else Number() filtered through Number.isFinite. -/
def parseFloatOpt (s : String) : Option ℚ :=
  let t := trimOrEmpty s
  if t.data.isEmpty then none else jsNumber t.data

/-- parseIntOpt of app.js lines 138-144: trim, empty gives undefined,
reject anything but an optional minus sign followed by digits, else the
integer value. -/
def parseIntOpt (s : String) : Option ℤ :=
  let t := trimOrEmpty s
  if t.data.isEmpty then none
  else
    let np : Bool × List Char :=
      match t.data with
      | '-' :: r => (true, r)
      | cs => (false, cs)
    if (!np.2.isEmpty) && np.2.all Char.isDigit then
      some ((if np.1 then -1 else 1) * (digitsToNat np.2 : ℤ))
    else none

/-- JSON whitespace accepted between tokens by JSON.parse. -/
def jsonWSChar (c : Char) : Bool := c = ' ' || c = '\t' || c = '\n' || c = '\r'

/-- Skip insignificant JSON whitespace. -/
def skipWS (cs : List Char) : List Char := cs.dropWhile jsonWSChar

/-- Hexadecimal digit value. -/
def hexVal (c : Char) : Option Nat :=
  if '0' ≤ c ∧ c ≤ '9' then some (c.toNat - 48)
  else if 'a' ≤ c ∧ c ≤ 'f' then some (c.toNat - 87)
  else if 'A' ≤ c ∧ c ≤ 'F' then some (c.toNat - 55)
  else none

/-- Body of a JSON string literal after the opening quote, with the
standard escapes; fuel bounds the recursion by the input length. -/
def parseStrAux : Nat → List Char → List Char → Except String (String × List Char)
  | 0, _, _ => .error "string literal too long"
  | _ + 1, _, [] => .error "unterminated string in JSON"
  | fuel + 1, acc, c :: rest =>
    if c = '"' then .ok (String.mk acc.reverse, rest)
    else if c = '\\' then
      match rest with
      | [] => .error "bad escape in JSON"
      | e :: rest2 =>
        if e = '"' || e = '\\' || e = '/' then parseStrAux fuel (e :: acc) rest2
        else if e = 'n' then parseStrAux fuel ('\n' :: acc) rest2
        else if e = 't' then parseStrAux fuel ('\t' :: acc) rest2
        else if e = 'r' then parseStrAux fuel ('\r' :: acc) rest2
        else if e = 'b' then parseStrAux fuel ('\x08' :: acc) rest2
        else if e = 'f' then parseStrAux fuel ('\x0c' :: acc) rest2
        else if e = 'u' then
          match rest2 with
          | h1 :: h2 :: h3 :: h4 :: rest3 =>
            match hexVal h1, hexVal h2, hexVal h3, hexVal h4 with
            | some a, some b, some c2, some d =>
              parseStrAux fuel (Char.ofNat (((a * 16 + b) * 16 + c2) * 16 + d) :: acc) rest3
            | _, _, _, _ => .error "bad Unicode escape in JSON"
          | _ => .error "bad Unicode escape in JSON"
        else .error "bad escape in JSON"
    else if c.toNat < 32 then .error "bad control character in JSON string"
    else parseStrAux fuel (c :: acc) rest

/-- JSON number grammar: optional minus, integer part without leading
zeros, optional fraction, optional exponent. -/
def parseJNum (cs : List Char) : Except String (ℚ × List Char) :=
  let np : Bool × List Char :=
    match cs with
    | '-' :: r => (true, r)
    | _ => (false, cs)
  let ip := np.2.takeWhile Char.isDigit
  if ip.isEmpty then .error "unexpected token in JSON"
  else if ip.length ≥ 2 ∧ ip.head? = some '0' then .error "leading zero in JSON number"
  else
    let rest1 := np.2.drop ip.length
    let fr : Except String (ℚ × List Char) :=
      match rest1 with
      | '.' :: r =>
        let f := r.takeWhile Char.isDigit
        if f.isEmpty then .error "missing digits after decimal point in JSON"
        else .ok ((digitsToNat ip : ℚ) + (digitsToNat f : ℚ) / (10 : ℚ) ^ f.length, r.drop f.length)
      | _ => .ok ((digitsToNat ip : ℚ), rest1)
    match fr with
    | .error m => .error m
    | .ok (q0, rest2) =>
      let q1 := if np.1 then -q0 else q0
      match rest2 with
      | 'e' :: r | 'E' :: r =>
        let ep : ℤ × List Char :=
          match r with
          | '+' :: rr => (1, rr)
          | '-' :: rr => (-1, rr)
          | _ => (1, r)
        let ed := ep.2.takeWhile Char.isDigit
        if ed.isEmpty then .error "missing digits in JSON exponent"
        else .ok (q1 * (10 : ℚ) ^ (ep.1 * (digitsToNat ed : ℤ)), ep.2.drop ed.length)
      | _ => .ok (q1, rest2)

mutual

/-- Recursive-descent JSON value parser modelling JSON.parse; fuel is
decremented on every nested call and is sized generously by parseJson. -/
def parseJVal : Nat → List Char → Except String (Json × List Char)
  | 0, _ => .error "JSON too deeply nested"
  | fuel + 1, cs =>
    match skipWS cs with
    | [] => .error "unexpected end of JSON input"
    | c :: rest =>
      if c = '"' then
        match parseStrAux (rest.length + 1) [] rest with
        | .error m => .error m
        | .ok (s, r) => .ok (Json.str s, r)
      else if c = '\x7b' then parseObjRest fuel [] (skipWS rest) true
      else if c = '[' then parseArrRest fuel [] (skipWS rest) true
      else if (c :: rest).take 4 = "true".data then .ok (Json.bool true, (c :: rest).drop 4)
      else if (c :: rest).take 5 = "false".data then .ok (Json.bool false, (c :: rest).drop 5)
      else if (c :: rest).take 4 = "null".data then .ok (Json.null, (c :: rest).drop 4)
      else
        match parseJNum (c :: rest) with
        | .error m => .error m
        | .ok (q, r) => .ok (Json.num q, r)

/-- Members of a JSON object after the opening brace (whitespace already
skipped); duplicate keys are resolved like JS: last value wins, first
position kept, via setKey. -/
def parseObjRest : Nat → List (String × Json) → List Char → Bool → Except String (Json × List Char)
  | 0, _, _, _ => .error "JSON too deeply nested"
  | fuel + 1, acc, cs, first =>
    match cs with
    | '\x7d' :: rest =>
      if first then .ok (Json.obj acc, rest) else .error "trailing comma in JSON object"
    | '"' :: rest =>
      match parseStrAux (rest.length + 1) [] rest with
      | .error m => .error m
      | .ok (k, r1) =>
        match skipWS r1 with
        | ':' :: r2 =>
          match parseJVal fuel r2 with
          | .error m => .error m
          | .ok (v, r3) =>
            match skipWS r3 with
            | ',' :: r4 => parseObjRest fuel (setKey acc k v) (skipWS r4) false
            | '\x7d' :: r4 => .ok (Json.obj (setKey acc k v), r4)
            | _ => .error "expected comma or closing brace in JSON object"
        | _ => .error "expected colon in JSON object"
    | _ => .error "expected property name in JSON object"

/-- Elements of a JSON array after the opening bracket (whitespace
already skipped). -/
def parseArrRest : Nat → List Json → List Char → Bool → Except String (Json × List Char)
  | 0, _, _, _ => .error "JSON too deeply nested"
  | fuel + 1, acc, cs, first =>
    match cs with
    | ']' :: rest =>
      if first then .ok (Json.arr acc, rest) else .error "trailing comma in JSON array"
    | _ =>
      match parseJVal fuel cs with
      | .error m => .error m
      | .ok (v, r1) =>
        match skipWS r1 with
        | ',' :: r2 => parseArrRest fuel (acc ++ [v]) (skipWS r2) false
        | ']' :: r2 => .ok (Json.arr (acc ++ [v]), r2)
        | _ => .error "expected comma or closing bracket in JSON array"

end

/-- JSON.parse as used by parseJsonOpt (app.js line 151-155): the whole
trimmed input must be a single JSON value. -/
def parseJson (s : String) : Except String Json :=
  match parseJVal (2 * s.data.length + 4) s.data with
  | .error m => .error m
  | .ok (v, rest) =>
    if (skipWS rest).isEmpty then .ok v
    else .error "unexpected non-whitespace character after JSON data"

/-- The eight widget kinds of the editor (spec section 3, derived in
fieldKind, app.js lines 289-302). -/
inductive Kind where
  | bool
  | int
  | float
  | string
  | string_select
  | stop_lines
  | checks
  | json
deriving DecidableEq

/-- Raw state of one rendered control: the value string of an input,
select or textarea, or the list of checked checkbox values (in DOM
order) for a checks group. -/
inductive RawValue where
  | text : String → RawValue
  | checks : List String → RawValue
deriving DecidableEq

/-- One rendered parameter item as validateAndBuild reads it from the
DOM: the data-field name, data-kind, data-required attributes and the
raw control state. -/
structure Field where
  name : String
  kind : Kind
  required : Bool
  raw : RawValue
deriving DecidableEq

/-- One schema entry (SdkField of app.js line 186). -/
structure SdkField where
  name : String
  type : String
  required : Bool
  description : String
deriving DecidableEq

/-- The form state validateAndBuild reads: the model input, the extra
textarea, and the rendered body-field and request-option items. -/
structure FormState where
  modelRaw : String
  extraRaw : String
  autoFields : List Field
  optionFields : List Field
deriving DecidableEq

/-- The value string of a text-like control; a checks group has no value
string, matching the instanceof guards in app.js that fall back to "". -/
def rawText : RawValue → String
  | .text s => s
  | .checks _ => ""

/-- The checked values of a checks group; a text-like control contains no
checkboxes, so the qsa checkbox query yields the empty list. -/
def rawChecks : RawValue → List String
  | .checks cs => cs
  | .text _ => []

/-- Per-kind coercion of one control's raw state (the try block of
app.js lines 633-668, identical in the request-option loop at lines
692-727): ok none is an omitted value, ok some an emitted one, error a
thrown coercion failure whose message the catch turns into a field
error. -/
def coerceValue (kind : Kind) (raw : RawValue) : Except String (Option Json) :=
  match kind with
  | .checks =>
    let cs := rawChecks raw
    .ok (if cs.isEmpty then none else some (Json.arr (cs.map Json.str)))
  | .bool =>
    let s := rawText raw
    .ok (if s = "" then none else some (Json.bool (s = "true")))
  | .int =>
    let s := rawText raw
    if trimOrEmpty s ≠ "" then
      match parseIntOpt s with
      | none => .error "必须是整数"
      | some n => .ok (some (Json.num (n : ℚ)))
    else .ok none
  | .float =>
    let s := rawText raw
    if trimOrEmpty s ≠ "" then
      match parseFloatOpt s with
      | none => .error "必须是数字"
      | some n => .ok (some (Json.num n))
    else .ok none
  | .string | .string_select =>
    let s := rawText raw
    .ok (if trimOrEmpty s ≠ "" then some (Json.str (trimOrEmpty s)) else none)
  | .stop_lines =>
    let s := rawText raw
    let lines := ((splitLines s).map (fun x => trimOrEmpty x)).filter (fun x => x ≠ "")
    .ok
      (match lines with
       | [] => none
       | [l] => some (Json.str l)
       | ls => some (Json.arr (ls.map Json.str)))
  | .json =>
    let s := rawText raw
    if trimOrEmpty s ≠ "" then
      match parseJson (trimOrEmpty s) with
      | .error m => .error m
      | .ok v => .ok (some v)
    else .ok none

/-- The error messages one field contributes to the accumulated list:
nothing for a nameless item (skipped by the loop), the parse-failure
message for a thrown coercion, the required-field message for an omitted
required value. -/
def fieldErrors (f : Field) : List String :=
  if f.name = "" then []
  else
    match coerceValue f.kind f.raw with
    | .error m => [f.name ++ " 解析失败：" ++ m]
    | .ok none => if f.required then [f.name ++ " 为必填字段。"] else []
    | .ok (some _) => []

/-- One iteration of the per-field loop of validateAndBuild (app.js
lines 621-676 and 680-735): skip nameless items, turn a thrown coercion
into an error and skip the field, report an omitted required field, and
assign an emitted value into the accumulated object. -/
def stepField (acc : List String × List (String × Json)) (f : Field) :
    List String × List (String × Json) :=
  if f.name = "" then acc
  else
    match coerceValue f.kind f.raw with
    | .error m => (acc.1 ++ [f.name ++ " 解析失败：" ++ m], acc.2)
    | .ok none =>
      (if f.required then acc.1 ++ [f.name ++ " 为必填字段。"] else acc.1, acc.2)
    | .ok (some v) => (acc.1, setKey acc.2 f.name v)

/-- The whole per-field loop: accumulated errors and the assembled value
object, in field order. -/
def processFields (fs : List Field) : List String × List (String × Json) :=
  fs.foldl stepField ([], [])

/-- One numeric range check of app.js lines 738-743: the statement
if typeof v is number and v is out of range then push the message.  The
typeof test passes exactly on a num value. -/
def numBlock (g : Option Json) (c : ℚ → Prop) [DecidablePred c] (msg : String) : List String :=
  match g with
  | some (Json.num q) => if c q then [msg] else []
  | _ => []

/-- The logit_bias shape check of app.js line 744: if the value is
present and not a plain object then push the message. -/
def logitBlock (g : Option Json) : List String :=
  match g with
  | some v => if isPlainObject v then [] else ["logit_bias 必须是 JSON object（token_id → int）。"]
  | none => []

/-- The cross-field checks of app.js lines 737-744, reading only the
body-field value object: numeric range checks for temperature, top_p,
presence_penalty, frequency_penalty, and the plain-object shape check
for logit_bias.  They only push messages; they never remove a value. -/
def rangeErrors (auto : List (String × Json)) : List String :=
  numBlock (getKey auto "temperature") (fun q => q < 0 ∨ q > 2) "temperature 范围为 0~2。" ++
  numBlock (getKey auto "top_p") (fun q => q < 0 ∨ q > 1) "top_p 范围为 0~1。" ++
  numBlock (getKey auto "presence_penalty") (fun q => q < -2 ∨ q > 2)
    "presence_penalty 范围为 -2~2。" ++
  numBlock (getKey auto "frequency_penalty") (fun q => q < -2 ∨ q > 2)
    "frequency_penalty 范围为 -2~2。" ++
  logitBlock (getKey auto "logit_bias")

/-- The freeform extra handling of app.js lines 746-756: when the
textarea is non-blank, parse it; a parse failure or a non-object value
pushes an error and leaves extra unset, an object value is kept. -/
def extraResult (raw : String) : List String × Option (List (String × Json)) :=
  if trimOrEmpty raw ≠ "" then
    match parseJson (trimOrEmpty raw) with
    | .error m => (["extra JSON 解析失败：" ++ m], none)
    | .ok v =>
      match v with
      | .obj kvs => ([], some kvs)
      | _ => (["extra 必须是 JSON object。"], none)
  else ([], none)

/-- Result record of validateAndBuild (app.js line 768). -/
structure BuildResult where
  ok : Bool
  errors : List String
  body : List (String × Json)
  options : List (String × Json)
  merged : List (String × Json)

/-- validateAndBuild (app.js lines 613-769): run both field loops, the
cross-field checks and the extra parse, then compose body = model plus
body-field values plus extra (later assignments win) and merged = body
plus request-option values. -/
def validateAndBuild (st : FormState) : BuildResult :=
  let model := trimOrEmpty st.modelRaw
  let auto := processFields st.autoFields
  let opts := processFields st.optionFields
  let ex := extraResult st.extraRaw
  let errors := auto.1 ++ opts.1 ++ rangeErrors auto.2 ++ ex.1
  let body0 : List (String × Json) := if model ≠ "" then [("model", Json.str model)] else []
  let body1 := assignAll body0 auto.2
  let body :=
    match ex.2 with
    | some e => assignAll body1 e
    | none => body1
  let merged := assignAll (assignAll [] body) opts.2
  { ok := errors.isEmpty
    errors := errors
    body := body
    options := opts.2
    merged := merged }

/-- Component views used to state the composition claims. -/
def autoPairs (st : FormState) : List (String × Json) := (processFields st.autoFields).2

/-- Request-option value object of a form state. -/
def optionPairs (st : FormState) : List (String × Json) := (processFields st.optionFields).2

/-- The parsed extra object of a form state, when accepted. -/
def extraPairs (st : FormState) : Option (List (String × Json)) := (extraResult st.extraRaw).2

/-- The contribution of the model input to a body lookup. -/
def modelLookup (st : FormState) (k : String) : Option Json :=
  if trimOrEmpty st.modelRaw ≠ "" ∧ k = "model" then some (Json.str (trimOrEmpty st.modelRaw))
  else none

/-- Lowercase hexadecimal digit. -/
def hexDigit (n : Nat) : Char := if n < 10 then Char.ofNat (48 + n) else Char.ofNat (87 + n)

/-- JSON.stringify escaping of one character. -/
def escapeJsonChar (c : Char) : List Char :=
  if c = '"' then ['\\', '"']
  else if c = '\\' then ['\\', '\\']
  else if c = '\n' then ['\\', 'n']
  else if c = '\r' then ['\\', 'r']
  else if c = '\t' then ['\\', 't']
  else if c = '\x08' then ['\\', 'b']
  else if c = '\x0c' then ['\\', 'f']
  else if c.toNat < 32 then ['\\', 'u', '0', '0', hexDigit (c.toNat / 16), hexDigit (c.toNat % 16)]
  else [c]

/-- JSON.stringify rendering of a string value. -/
def quoteString (s : String) : String :=
  String.mk ('"' :: s.data.foldr (fun c acc => escapeJsonChar c ++ acc) ['"'])

/-- Decimal rendering of a rational: exact for integers and for
fractions with a power-of-ten denominator (every number this program
produces from its decimal inputs); other rationals fall back to a
fraction notation that JS would render differently, a deliberate model
boundary no claim touches. -/
def numToString (q : ℚ) : String :=
  if q.den = 1 then toString q.num
  else
    match (List.range 21).find? (fun k => (q * (10 : ℚ) ^ k).den = 1) with
    | some k =>
      let neg : Bool := q < 0
      let aq : ℚ := if neg then -q else q
      let ds := (toString (aq * (10 : ℚ) ^ k).num.toNat).data
      let ds := if ds.length < k + 1 then List.replicate (k + 1 - ds.length) '0' ++ ds else ds
      let ip := ds.take (ds.length - k)
      let fp := ds.drop (ds.length - k)
      String.mk ((if neg then ['-'] else []) ++ ip ++ '.' :: fp)
    | none => toString q.num ++ "/" ++ toString q.den

mutual

/-- JSON.stringify(v) with no spacing, as used for the output textarea
(app.js line 775). -/
def stringifyVal : Json → String
  | .null => "null"
  | .bool b => if b then "true" else "false"
  | .num q => numToString q
  | .str s => quoteString s
  | .arr xs => "[" ++ stringifyArr xs ++ "]"
  | .obj kvs => "\x7b" ++ stringifyObjBody kvs ++ "\x7d"

/-- Comma-joined array elements of compact stringify. -/
def stringifyArr : List Json → String
  | [] => ""
  | [x] => stringifyVal x
  | x :: y :: xs => stringifyVal x ++ "," ++ stringifyArr (y :: xs)

/-- Comma-joined object members of compact stringify. -/
def stringifyObjBody : List (String × Json) → String
  | [] => ""
  | [(k, v)] => quoteString k ++ ":" ++ stringifyVal v
  | (k, v) :: p :: kvs => quoteString k ++ ":" ++ stringifyVal v ++ "," ++ stringifyObjBody (p :: kvs)

end

/-- Indentation of the pretty printer: two spaces per level. -/
def indentStr (lvl : Nat) : String := String.mk (List.replicate (2 * lvl) ' ')

mutual

/-- JSON.stringify(v, null, 2), as used for the display element (app.js
line 776). -/
def prettyVal : Nat → Json → String
  | _, .null => "null"
  | _, .bool b => if b then "true" else "false"
  | _, .num q => numToString q
  | _, .str s => quoteString s
  | _, .arr [] => "[]"
  | lvl, .arr (x :: xs) =>
    "[\n" ++ prettyArr (lvl + 1) (x :: xs) ++ "\n" ++ indentStr lvl ++ "]"
  | _, .obj [] => "\x7b\x7d"
  | lvl, .obj (p :: ps) =>
    "\x7b\n" ++ prettyObjBody (lvl + 1) (p :: ps) ++ "\n" ++ indentStr lvl ++ "\x7d"

/-- Indented array elements of pretty stringify. -/
def prettyArr : Nat → List Json → String
  | _, [] => ""
  | lvl, [x] => indentStr lvl ++ prettyVal lvl x
  | lvl, x :: y :: xs => indentStr lvl ++ prettyVal lvl x ++ ",\n" ++ prettyArr lvl (y :: xs)

/-- Indented object members of pretty stringify. -/
def prettyObjBody : Nat → List (String × Json) → String
  | _, [] => ""
  | lvl, [(k, v)] => indentStr lvl ++ quoteString k ++ ": " ++ prettyVal lvl v
  | lvl, (k, v) :: p :: kvs =>
    indentStr lvl ++ quoteString k ++ ": " ++ prettyVal lvl v ++ ",\n" ++ prettyObjBody lvl (p :: kvs)

end

/-- The UI surfaces sync writes (app.js lines 771-785): the hidden
output textarea, the display element, the hint line and the rendered
error list.  The form controls themselves are part of form and are only
read, never written, by sync. -/
structure UIState where
  form : FormState
  outputText : String
  outputDisplay : String
  hint : String
  errorsShown : List String

/-- Hint shown when validation passes. -/
def hintOk : String := "校验通过：可复制总 JSON。"

/-- Hint shown when validation fails. -/
def hintBad : String :=
  "未通过校验：输出框仍会实时展示当前可解析的总 JSON（错误字段已忽略），请修正错误后再复制。"

/-- sync (app.js lines 771-785): rebuild, render errors, always write
the best-effort compact and pretty JSON, set the hint, return the
result. -/
def sync (ui : UIState) : UIState × BuildResult :=
  let res := validateAndBuild ui.form
  ({ form := ui.form
     outputText := stringifyVal (Json.obj res.merged)
     outputDisplay := prettyVal 0 (Json.obj res.merged)
     hint := if res.ok then hintOk else hintBad
     errorsShown := res.errors },
   res)

/-- Outcome of the copy-output action: refused with a toast, or the
copied text. -/
inductive CopyOutcome where
  | refused : CopyOutcome
  | copied : String → CopyOutcome
deriving DecidableEq

/-- The copy-output click handler (app.js lines 800-810): re-sync, and
only when the result is ok copy the output textarea's content. -/
def copyOutput (ui : UIState) : UIState × CopyOutcome :=
  let r := sync ui
  if r.2.ok then (r.1, CopyOutcome.copied r.1.outputText) else (r.1, CopyOutcome.refused)

/-- Contiguous-substring test: regexp test against a literal pattern. -/
def hasSub : List Char → List Char → Bool
  | [], needle => needle.isEmpty
  | c :: rest, needle => needle.isPrefixOf (c :: rest) || hasSub rest needle

/-- JS regexp word character class. -/
def isWordChar (c : Char) : Bool := c.isAlpha || c.isDigit || c = '_'

/-- A word boundary holds at the string start or after a non-word
character. -/
def boundaryOk : Option Char → Bool
  | none => true
  | some c => !isWordChar c

/-- Scan for a word-bounded occurrence of the needle, carrying the
previous character; models a test of a b-anchored word regexp. -/
def hasWordFrom (needle : List Char) : Option Char → List Char → Bool
  | _, [] => false
  | prev, c :: rest =>
    (boundaryOk prev && needle.isPrefixOf (c :: rest) &&
      (match (c :: rest).drop needle.length with
       | [] => true
       | d :: _ => !isWordChar d)) ||
    hasWordFrom needle (some c) rest

/-- Word-bounded occurrence anywhere in the haystack. -/
def hasWord (needle hay : List Char) : Bool := hasWordFrom needle none hay

/-- isBoolType of app.js line 206. -/
def isBoolType (t : String) : Bool :=
  hasWord "bool".data t.data || hasSub t.data "Optional[bool]".data

/-- isIntType of app.js line 212. -/
def isIntType (t : String) : Bool :=
  hasWord "int".data t.data || hasSub t.data "Optional[int]".data

/-- isFloatType of app.js line 218. -/
def isFloatType (t : String) : Bool :=
  hasWord "float".data t.data || hasSub t.data "Optional[float]".data

/-- First index at which the needle occurs, with a running offset. -/
def indexOfSubAux : List Char → List Char → Nat → Option Nat
  | [], needle, i => if needle.isEmpty then some i else none
  | c :: rest, needle, i =>
    if needle.isPrefixOf (c :: rest) then some i else indexOfSubAux rest needle (i + 1)

/-- First index at which the needle occurs in the haystack. -/
def indexOfSub (hay needle : List Char) : Option Nat := indexOfSubAux hay needle 0

/-- Index of the last occurrence of a character. -/
def lastIdxOf (c : Char) (cs : List Char) : Option Nat :=
  (List.range cs.length).foldl (fun acc i => if cs.get? i = some c then some i else acc) none

/-- All globally matched delimiter-quoted non-empty tokens, as a global
regexp match of delim([^delim]+)delim collects them: on an empty pair
the engine restarts at the second delimiter; an unclosed token at the
end matches nothing further.  Fuel is the input length. -/
def delimTokensAux (delim : Char) : Nat → List Char → List String
  | 0, _ => []
  | _ + 1, [] => []
  | fuel + 1, c :: rest =>
    if c = delim then
      let tok := rest.takeWhile (fun x => x ≠ delim)
      if tok.isEmpty then delimTokensAux delim fuel rest
      else
        match rest.drop tok.length with
        | _ :: rest2 => String.mk tok :: delimTokensAux delim fuel rest2
        | [] => []
    else delimTokensAux delim fuel rest

/-- Delimiter-quoted tokens of a character list. -/
def delimTokens (delim : Char) (cs : List Char) : List String := delimTokensAux delim cs.length cs

/-- parseLiteralOptionsFromType of app.js lines 260-267: the regexp
Literal[(.+)] matches at the first "Literal[" when some "]" follows
with at least one character between (the greedy group runs to the last
"]"); the double-quoted tokens inside the group are the options, none
meaning no options. -/
def parseLiteralOptionsFromType (t : String) : Option (List String) :=
  match indexOfSub t.data "Literal[".data with
  | none => none
  | some i =>
    let rest := t.data.drop (i + 8)
    match lastIdxOf ']' rest with
    | none => none
    | some j =>
      if j ≥ 1 then
        let opts := delimTokens '"' (rest.take j)
        if opts.isEmpty then none else some opts
      else none

/-- Lowercased characters of a string, for the case-insensitive cue
tests. -/
def lowerData (s : String) : List Char := s.data.map Char.toLower

/-- The enumeration cues of parseBacktickedOptionsFromDescription
(app.js lines 275-277). -/
def looksLikeEnum (d : String) : Bool :=
  hasSub (lowerData d) "supported values are".data ||
  hasSub (lowerData d) "supported values".data ||
  hasSub (lowerData d) "currently supported".data ||
  hasSub (lowerData d) "possible values".data

/-- The backtick character, written by code point. -/
def backtickChar : Char := Char.ofNat 96

/-- All backtick-quoted tokens of a description, in order, duplicates
kept. -/
def backtickTokens (d : String) : List String := delimTokens backtickChar d.data

/-- Set-insertion deduplication keeping first occurrences, modelling
Array.from(new Set(xs)). -/
def dedupKeepFirst (xs : List String) : List String :=
  xs.foldl (fun acc x => if acc.contains x then acc else acc ++ [x]) []

/-- parseBacktickedOptionsFromDescription of app.js lines 273-283:
requires an enumeration cue, keeps backticked tokens of at most 32
characters, deduplicates, and requires at least two distinct ones. -/
def parseBacktickedOptionsFromDescription (d : String) : Option (List String) :=
  if looksLikeEnum d then
    let opts := (backtickTokens d).filter (fun s => (!s.isEmpty) && decide (s.length ≤ 32))
    let uniq := dedupKeepFirst opts
    if uniq.length ≥ 2 then some uniq else none
  else none

/-- Whitespace removal modelling the replace of a whitespace-run regexp
with the empty string. -/
def stripWSChars (cs : List Char) : List Char := cs.filter (fun c => !isWSJS c)

/-- unwrapOptional inside isStringType (app.js lines 228-231): an
anchored Optional[(.+)] match strips the wrapper, anything else is
returned unchanged. -/
def unwrapOptionalChars (cs : List Char) : List Char :=
  if "Optional[".data.isPrefixOf cs ∧ cs.getLast? = some ']' ∧ cs.length ≥ 11 then
    (cs.drop 9).dropLast
  else cs

/-- Top-level comma split of a Union body (app.js lines 237-252): depth
is adjusted on brackets before the comma test, and clamped at zero on
closers; a trailing empty segment is dropped. -/
def splitTopLevel (cs : List Char) : List (List Char) :=
  let st := cs.foldl
    (fun (st : List (List Char) × List Char × Nat) c =>
      let depth := st.2.2
      let depth' :=
        if c = '[' || c = '(' || c = '\x7b' then depth + 1
        else if c = ']' || c = ')' || c = '\x7d' then depth - 1
        else depth
      if c = ',' ∧ depth' = 0 then (st.1 ++ [st.2.1], ([] : List Char), depth')
      else (st.1, st.2.1 ++ [c], depth'))
    ([], [], 0)
  if st.2.1.isEmpty then st.1 else st.1 ++ [st.2.1]

/-- isStringType of app.js lines 224-254: strip whitespace, unwrap a
top-level Optional, accept "str" itself, and otherwise a Union whose
top-level members (each unwrapped once more) include "str". -/
def isStringType (t : String) : Bool :=
  let tt := stripWSChars t.data
  let base := unwrapOptionalChars tt
  if base = "str".data then true
  else if !("Union[".data.isPrefixOf base) then false
  else
    let inner := (base.drop 6).dropLast
    (splitTopLevel inner).any (fun p => unwrapOptionalChars p = "str".data)

/-- The checks-branch guard of fieldKind: some literal options and the
literal pattern "List[Literal[" in the type text. -/
def hasListLiteral (t : String) : Bool :=
  (parseLiteralOptionsFromType t).isSome && hasSub t.data "List[Literal[".data

/-- fieldKind of app.js lines 289-302: the first-match-wins classifier
from a schema field to a widget kind. -/
def fieldKind (f : SdkField) : Kind :=
  if f.name = "stop" then Kind.stop_lines
  else
    let lit := parseLiteralOptionsFromType f.type
    if lit.isSome && hasSub f.type.data "List[Literal[".data then Kind.checks
    else if isBoolType f.type then Kind.bool
    else if isIntType f.type then Kind.int
    else if isFloatType f.type then Kind.float
    else if isStringType f.type then
      if (parseBacktickedOptionsFromDescription f.description).isSome then Kind.string_select
      else Kind.string
    else Kind.json

/-- The option values the rendered bool select offers (renderField,
app.js line 345): unset, false, true. -/
def boolSelectOptions : List String := ["", "false", "true"]

/-- A control's raw state is blank for its kind: no box checked for a
checks group, the unset select value for a bool, and an
all-whitespace-or-empty value string for every text-like kind. -/
def isBlank (k : Kind) (r : RawValue) : Bool :=
  match k with
  | .checks => (rawChecks r).isEmpty
  | .bool => decide (rawText r = "")
  | _ => decide (trimOrEmpty (rawText r) = "")

theorem firstSome_none_right (a : Option Json) : firstSome a none = a := by
  cases a <;> rfl

theorem getKey_nil (k : String) : getKey [] k = none := rfl

theorem getKey_cons (p : String × Json) (m : List (String × Json)) (k : String) :
    getKey (p :: m) k = if p.1 = k then some p.2 else getKey m k := by
  by_cases h : p.1 = k <;> simp [getKey, List.find?_cons, h]

theorem getKey_map_upd_ne (m : List (String × Json)) (a k : String) (v : Json) (h : k ≠ a) :
    getKey (m.map (fun p => if p.1 = a then (a, v) else p)) k = getKey m k := by
  induction m with
  | nil => rfl
  | cons p rest ih =>
    simp only [List.map_cons]
    by_cases hp : p.1 = a
    · rw [if_pos hp, getKey_cons, getKey_cons]
      have h1 : ¬(a = k) := fun e => h e.symm
      have h2 : ¬(p.1 = k) := by rw [hp]; exact h1
      simp only [h1, h2, if_false, ih]
    · rw [if_neg hp, getKey_cons, getKey_cons, ih]

theorem getKey_map_upd_mem (m : List (String × Json)) (a : String) (v : Json)
    (h : m.any (fun p => p.1 = a) = true) :
    getKey (m.map (fun p => if p.1 = a then (a, v) else p)) a = some v := by
  induction m with
  | nil => simp at h
  | cons p rest ih =>
    simp only [List.map_cons]
    by_cases hp : p.1 = a
    · rw [if_pos hp, getKey_cons]; simp
    · rw [if_neg hp, getKey_cons, if_neg hp]
      apply ih
      simpa [List.any_cons, hp] using h

theorem getKey_append_single (m : List (String × Json)) (a k : String) (v : Json) :
    getKey (m ++ [(a, v)]) k =
      match getKey m k with
      | some w => some w
      | none => if a = k then some v else none := by
  induction m with
  | nil => simp [getKey_nil, getKey_cons, getKey]
  | cons p rest ih =>
    rw [List.cons_append, getKey_cons, getKey_cons]
    by_cases hp : p.1 = k
    · simp [hp]
    · simp only [hp, if_false, ih]

theorem getKey_eq_none_of_any_false (m : List (String × Json)) (a : String)
    (h : m.any (fun p => p.1 = a) = false) : getKey m a = none := by
  induction m with
  | nil => rfl
  | cons p rest ih =>
    simp only [List.any_cons, Bool.or_eq_false_iff] at h
    rw [getKey_cons, if_neg (by simpa using h.1)]
    exact ih h.2

theorem getKey_setKey (m : List (String × Json)) (a k : String) (v : Json) :
    getKey (setKey m a v) k = if k = a then some v else getKey m k := by
  unfold setKey
  cases hm : m.any (fun p => p.1 = a) with
  | true =>
    simp only [hm, if_true]
    by_cases hk : k = a
    · subst hk; rw [if_pos rfl]; exact getKey_map_upd_mem m k v hm
    · rw [if_neg hk]; exact getKey_map_upd_ne m a k v hk
  | false =>
    simp only [hm, Bool.false_eq_true, if_false]
    rw [getKey_append_single]
    by_cases hk : k = a
    · rw [hk, getKey_eq_none_of_any_false m a hm]
    · have h1 : ¬(a = k) := fun e => hk e.symm
      cases hg : getKey m k with
      | none => simp [h1, hk]
      | some w => simp [hk]

theorem lookupLast_nil (k : String) : lookupLast [] k = none := rfl

theorem lookupLast_foldl_init (m : List (String × Json)) (k : String) (a : Option Json) :
    m.foldl (fun acc p => if p.1 = k then some p.2 else acc) a =
      firstSome (lookupLast m k) a := by
  induction m generalizing a with
  | nil => cases a <;> rfl
  | cons p rest ih =>
    simp only [List.foldl_cons]
    rw [ih, show lookupLast (p :: rest) k =
      rest.foldl (fun acc q => if q.1 = k then some q.2 else acc)
        (if p.1 = k then some p.2 else none) from rfl, ih]
    cases hl : lookupLast rest k with
    | some w => rfl
    | none =>
      by_cases hp : p.1 = k <;> simp [firstSome, hp]

theorem lookupLast_cons (p : String × Json) (m : List (String × Json)) (k : String) :
    lookupLast (p :: m) k =
      firstSome (lookupLast m k) (if p.1 = k then some p.2 else none) := by
  rw [show lookupLast (p :: m) k =
    m.foldl (fun acc q => if q.1 = k then some q.2 else acc)
      (if p.1 = k then some p.2 else none) from rfl]
  exact lookupLast_foldl_init m k _

theorem lookupLast_append_single (m : List (String × Json)) (a : String) (v : Json)
    (k : String) :
    lookupLast (m ++ [(a, v)]) k = if a = k then some v else lookupLast m k := by
  unfold lookupLast
  rw [List.foldl_append]
  simp only [List.foldl_cons, List.foldl_nil]

theorem keys_map_upd (m : List (String × Json)) (a : String) (v : Json) :
    (m.map (fun p => if p.1 = a then (a, v) else p)).map Prod.fst = m.map Prod.fst := by
  induction m with
  | nil => rfl
  | cons p rest ih =>
    simp only [List.map_cons, ih]
    by_cases hp : p.1 = a <;> simp [hp]

theorem not_mem_keys_of_any_false (m : List (String × Json)) (a : String)
    (h : m.any (fun p => p.1 = a) = false) : a ∉ m.map Prod.fst := by
  intro hmem
  rcases List.mem_map.mp hmem with ⟨p, hp, he⟩
  have : m.any (fun p => p.1 = a) = true := List.any_eq_true.mpr ⟨p, hp, by simp [he]⟩
  rw [h] at this
  exact Bool.false_ne_true this

theorem lookupLast_eq_none_of_not_mem (m : List (String × Json)) (k : String)
    (h : k ∉ m.map Prod.fst) : lookupLast m k = none := by
  induction m with
  | nil => rfl
  | cons p rest ih =>
    simp only [List.map_cons, List.mem_cons] at h
    push_neg at h
    rw [lookupLast_cons, ih h.2, if_neg (fun e => h.1 e.symm)]
    rfl

theorem lookupLast_ne_none_of_mem_keys (m : List (String × Json)) (k : String)
    (h : k ∈ m.map Prod.fst) : lookupLast m k ≠ none := by
  induction m with
  | nil => simp at h
  | cons p rest ih =>
    rw [lookupLast_cons]
    simp only [List.map_cons, List.mem_cons] at h
    rcases h with h | h
    · rw [if_pos h.symm]
      cases lookupLast rest k <;> simp [firstSome]
    · have := ih h
      cases hl : lookupLast rest k with
      | none => exact absurd hl this
      | some w => simp [firstSome]

theorem mem_keys_setKey (m : List (String × Json)) (a : String) (v : Json) (k : String)
    (h : k ∈ (setKey m a v).map Prod.fst) : k = a ∨ k ∈ m.map Prod.fst := by
  unfold setKey at h
  cases hm : m.any (fun p => p.1 = a) with
  | true =>
    simp only [hm, if_true] at h
    rw [keys_map_upd] at h
    exact Or.inr h
  | false =>
    simp only [hm, Bool.false_eq_true, if_false, List.map_append] at h
    rcases List.mem_append.mp h with h | h
    · exact Or.inr h
    · simp only [List.map_cons, List.map_nil, List.mem_singleton] at h
      exact Or.inl h

theorem getKey_assignAll (m kvs : List (String × Json)) (k : String) :
    getKey (assignAll m kvs) k = firstSome (lookupLast kvs k) (getKey m k) := by
  induction kvs generalizing m with
  | nil => rfl
  | cons p rest ih =>
    rw [show assignAll m (p :: rest) = assignAll (setKey m p.1 p.2) rest from rfl, ih,
      getKey_setKey, lookupLast_cons]
    cases hl : lookupLast rest k with
    | some w => rfl
    | none =>
      by_cases hp : p.1 = k
      · rw [if_pos hp.symm, if_pos hp]
        rfl
      · rw [if_neg (fun e => hp e.symm), if_neg hp]
        rfl

theorem nodup_keys_setKey (m : List (String × Json)) (a : String) (v : Json)
    (h : (m.map Prod.fst).Nodup) : ((setKey m a v).map Prod.fst).Nodup := by
  unfold setKey
  cases hm : m.any (fun p => p.1 = a) with
  | true =>
    simp only [hm, if_true]
    rw [keys_map_upd]
    exact h
  | false =>
    simp only [hm, Bool.false_eq_true, if_false, List.map_append]
    rw [List.nodup_append]
    refine ⟨h, List.nodup_singleton _, ?_⟩
    intro x hx hx1
    simp only [List.map_cons, List.map_nil, List.mem_singleton] at hx1
    exact not_mem_keys_of_any_false m a hm (hx1 ▸ hx)

theorem nodup_keys_assignAll (m kvs : List (String × Json))
    (h : (m.map Prod.fst).Nodup) : ((assignAll m kvs).map Prod.fst).Nodup := by
  induction kvs generalizing m with
  | nil => exact h
  | cons p rest ih =>
    exact ih (setKey m p.1 p.2) (nodup_keys_setKey m p.1 p.2 h)

theorem lookupLast_eq_getKey (m : List (String × Json)) (k : String)
    (h : (m.map Prod.fst).Nodup) : lookupLast m k = getKey m k := by
  induction m with
  | nil => rfl
  | cons p rest ih =>
    simp only [List.map_cons, List.nodup_cons] at h
    rw [lookupLast_cons, getKey_cons]
    by_cases hp : p.1 = k
    · have hnm : k ∉ rest.map Prod.fst := by rw [← hp]; exact h.1
      rw [lookupLast_eq_none_of_not_mem rest k hnm]
      simp [firstSome, hp]
    · rw [if_neg hp, if_neg hp, firstSome_none_right]
      exact ih h.2

theorem mem_keys_of_lookupLast_some (m : List (String × Json)) (k : String) (w : Json)
    (h : lookupLast m k = some w) : k ∈ m.map Prod.fst := by
  by_contra hnot
  rw [lookupLast_eq_none_of_not_mem m k hnot] at h
  exact Option.noConfusion h

theorem stepField_fst (acc : List String × List (String × Json)) (f : Field) :
    (stepField acc f).1 = acc.1 ++ fieldErrors f := by
  unfold stepField fieldErrors
  by_cases hn : f.name = ""
  · simp [hn]
  · simp only [hn, if_false]
    cases coerceValue f.kind f.raw with
    | error m => rfl
    | ok o =>
      cases o with
      | none => by_cases hr : f.required <;> simp [hr]
      | some v => simp

theorem foldl_stepField_errors (fs : List Field) (e : List String)
    (v : List (String × Json)) :
    (fs.foldl stepField (e, v)).1 = e ++ ((fs.map fieldErrors).flatten) := by
  induction fs generalizing e v with
  | nil => simp
  | cons f rest ih =>
    simp only [List.foldl_cons, List.map_cons, List.flatten_cons]
    rw [show rest.foldl stepField (stepField (e, v) f) =
      rest.foldl stepField ((stepField (e, v) f).1, (stepField (e, v) f).2) from rfl]
    rw [ih, stepField_fst, List.append_assoc]

theorem processFields_errors (fs : List Field) :
    (processFields fs).1 = (fs.map fieldErrors).flatten := by
  unfold processFields
  rw [foldl_stepField_errors]
  rfl

theorem stepField_snd (acc : List String × List (String × Json)) (f : Field) :
    (stepField acc f).2 = acc.2 ∨
      ∃ v, coerceValue f.kind f.raw = Except.ok (some v) ∧ f.name ≠ "" ∧
        (stepField acc f).2 = setKey acc.2 f.name v := by
  unfold stepField
  by_cases hn : f.name = ""
  · simp [hn]
  · simp only [hn, if_false]
    cases hc : coerceValue f.kind f.raw with
    | error m => exact Or.inl rfl
    | ok o =>
      cases o with
      | none => exact Or.inl rfl
      | some v => exact Or.inr ⟨v, rfl, hn, rfl⟩

theorem foldl_stepField_getKey_none (fs : List Field) (e : List String)
    (v : List (String × Json)) (k : String)
    (h : ∀ g ∈ fs, g.name = k → ∀ w, coerceValue g.kind g.raw ≠ Except.ok (some w)) :
    getKey (fs.foldl stepField (e, v)).2 k = getKey v k := by
  induction fs generalizing e v with
  | nil => rfl
  | cons f rest ih =>
    simp only [List.foldl_cons]
    rw [show rest.foldl stepField (stepField (e, v) f) =
      rest.foldl stepField ((stepField (e, v) f).1, (stepField (e, v) f).2) from rfl]
    rw [ih _ _ (fun g hg => h g (List.mem_cons_of_mem f hg))]
    rcases stepField_snd (e, v) f with hs | ⟨w, hw, hn, hs⟩
    · rw [hs]
    · rw [hs, getKey_setKey]
      have hne : k ≠ f.name := by
        intro e1
        exact h f (List.mem_cons_self f rest) e1.symm w hw
      rw [if_neg hne]

theorem foldl_stepField_nodup (fs : List Field) (e : List String)
    (v : List (String × Json)) (h : (v.map Prod.fst).Nodup) :
    (((fs.foldl stepField (e, v)).2).map Prod.fst).Nodup := by
  induction fs generalizing e v with
  | nil => exact h
  | cons f rest ih =>
    simp only [List.foldl_cons]
    rw [show rest.foldl stepField (stepField (e, v) f) =
      rest.foldl stepField ((stepField (e, v) f).1, (stepField (e, v) f).2) from rfl]
    apply ih
    rcases stepField_snd (e, v) f with hs | ⟨w, _, _, hs⟩
    · rw [hs]; exact h
    · rw [hs]; exact nodup_keys_setKey _ _ _ h

theorem processFields_nodup (fs : List Field) :
    (((processFields fs).2).map Prod.fst).Nodup :=
  foldl_stepField_nodup fs [] [] List.nodup_nil

theorem foldl_stepField_origin (fs : List Field) (e : List String)
    (v : List (String × Json)) (k : String) (w : Json)
    (h : lookupLast (fs.foldl stepField (e, v)).2 k = some w) :
    lookupLast v k ≠ none ∨
      ∃ f, f ∈ fs ∧ f.name = k ∧ ∃ u, coerceValue f.kind f.raw = Except.ok (some u) := by
  induction fs generalizing e v with
  | nil =>
    left
    intro hn
    rw [show (List.foldl stepField (e, v) []).2 = v from rfl, hn] at h
    exact Option.noConfusion h
  | cons f rest ih =>
    simp only [List.foldl_cons] at h
    rw [show rest.foldl stepField (stepField (e, v) f) =
      rest.foldl stepField ((stepField (e, v) f).1, (stepField (e, v) f).2) from rfl] at h
    rcases ih _ _ h with hne | ⟨g, hg, hgk, u, hu⟩
    · rcases stepField_snd (e, v) f with hs | ⟨u, hu, hn, hs⟩
      · rw [hs] at hne
        exact Or.inl hne
      · rw [hs] at hne
        by_cases hkf : k = f.name
        · exact Or.inr ⟨f, List.mem_cons_self f rest, hkf.symm, u, hu⟩
        · left
          intro h0
          apply hne
          rcases hl : lookupLast (setKey v f.name u) k with _ | w2
          · rfl
          · exact absurd (mem_keys_of_lookupLast_some _ _ _ hl)
              (fun hm => by
                rcases mem_keys_setKey v f.name u k hm with h1 | h1
                · exact hkf h1
                · exact lookupLast_ne_none_of_mem_keys v k h1 h0)
    · exact Or.inr ⟨g, List.mem_cons_of_mem f hg, hgk, u, hu⟩

theorem all_ws_of_jsTrimAux_nil (cs : List Char) (h : jsTrimAux cs = []) :
    ∀ c ∈ cs, isWSJS c = true := by
  unfold jsTrimAux at h
  rw [List.reverse_eq_nil_iff, List.dropWhile_eq_nil_iff] at h
  intro c hc
  rw [← List.takeWhile_append_dropWhile isWSJS cs] at hc
  rcases List.mem_append.mp hc with hc | hc
  · exact List.mem_takeWhile_imp hc
  · exact h c (List.mem_reverse.mpr hc)

theorem jsTrimAux_nil_of_all_ws (cs : List Char) (h : ∀ c ∈ cs, isWSJS c = true) :
    jsTrimAux cs = [] := by
  unfold jsTrimAux
  rw [List.dropWhile_eq_nil_iff.mpr h]
  rfl

theorem trimOrEmpty_eq_empty_iff (s : String) :
    trimOrEmpty s = "" ↔ jsTrimAux s.data = [] := by
  constructor
  · intro h
    have h2 := congrArg String.data h
    simpa [trimOrEmpty] using h2
  · intro h
    unfold trimOrEmpty
    rw [h]

theorem splitChar_ne_nil (sep : Char) (cs : List Char) : splitChar sep cs ≠ [] := by
  induction cs with
  | nil => simp [splitChar]
  | cons c rest ih =>
    unfold splitChar
    by_cases hc : c = sep
    · simp [hc]
    · simp only [hc, if_false]
      cases hr : splitChar sep rest with
      | nil => exact absurd hr ih
      | cons y ys => simp

theorem mem_splitChar_subset (sep : Char) (cs seg : List Char) (c : Char)
    (hseg : seg ∈ splitChar sep cs) (hc : c ∈ seg) : c ∈ cs := by
  induction cs generalizing seg with
  | nil =>
    simp only [splitChar, List.mem_singleton] at hseg
    rw [hseg] at hc
    exact absurd hc (List.not_mem_nil c)
  | cons x xs ih =>
    unfold splitChar at hseg
    by_cases hx : x = sep
    · simp only [hx, if_true, List.mem_cons] at hseg
      rcases hseg with hseg | hseg
      · rw [hseg] at hc
        exact absurd hc (List.not_mem_nil c)
      · exact List.mem_cons_of_mem x (ih seg hseg hc)
    · simp only [hx, if_false] at hseg
      cases hr : splitChar sep xs with
      | nil => exact absurd hr (splitChar_ne_nil sep xs)
      | cons y ys =>
        rw [hr] at hseg
        rcases List.mem_cons.mp hseg with hseg | hseg
        · rw [hseg] at hc
          rcases List.mem_cons.mp hc with hcx | hcy
          · rw [hcx]; exact List.mem_cons_self x xs
          · exact List.mem_cons_of_mem x (ih y (by rw [hr]; exact List.mem_cons_self y ys) hcy)
        · exact List.mem_cons_of_mem x (ih seg (by rw [hr]; exact List.mem_cons_of_mem y hseg) hc)

theorem coerceValue_blank (k : Kind) (r : RawValue) (h : isBlank k r = true) :
    coerceValue k r = Except.ok none := by
  cases k with
  | checks =>
    simp only [isBlank] at h
    simp [coerceValue, h]
  | bool =>
    simp only [isBlank, decide_eq_true_eq] at h
    simp [coerceValue, h]
  | int =>
    simp only [isBlank, decide_eq_true_eq] at h
    simp [coerceValue, h]
  | float =>
    simp only [isBlank, decide_eq_true_eq] at h
    simp [coerceValue, h]
  | string =>
    simp only [isBlank, decide_eq_true_eq] at h
    simp [coerceValue, h]
  | string_select =>
    simp only [isBlank, decide_eq_true_eq] at h
    simp [coerceValue, h]
  | json =>
    simp only [isBlank, decide_eq_true_eq] at h
    simp [coerceValue, h]
  | stop_lines =>
    simp only [isBlank, decide_eq_true_eq] at h
    have hws := all_ws_of_jsTrimAux_nil _ ((trimOrEmpty_eq_empty_iff _).mp h)
    have hlines : ((splitLines (rawText r)).map (fun x => trimOrEmpty x)).filter
        (fun x => x ≠ "") = [] := by
      rw [List.filter_eq_nil_iff]
      intro a ha
      simp only [List.mem_map] at ha
      rcases ha with ⟨seg, hseg, hae⟩
      simp only [splitLines, List.mem_map] at hseg
      rcases hseg with ⟨segChars, hsc, hse⟩
      have hallws : ∀ c ∈ segChars, isWSJS c = true := by
        intro c hcmem
        exact hws c (mem_splitChar_subset '\n' (rawText r).data segChars c hsc hcmem)
      have : trimOrEmpty seg = "" := by
        rw [← hse]
        apply (trimOrEmpty_eq_empty_iff _).mpr
        apply jsTrimAux_nil_of_all_ws
        intro c hcmem
        exact hallws c hcmem
      rw [← hae, this]
      simp
    simp only [coerceValue, hlines]

theorem fieldErrors_blank (f : Field) (h : isBlank f.kind f.raw = true) :
    fieldErrors f = if f.name ≠ "" ∧ f.required then [f.name ++ " 为必填字段。"] else [] := by
  unfold fieldErrors
  rw [coerceValue_blank f.kind f.raw h]
  by_cases hn : f.name = "" <;> by_cases hr : f.required <;> simp [hn, hr]

theorem getKey_body0 (st : FormState) (k : String) :
    getKey
      (if trimOrEmpty st.modelRaw ≠ "" then
        [("model", Json.str (trimOrEmpty st.modelRaw))] else []) k = modelLookup st k := by
  unfold modelLookup
  by_cases hm : trimOrEmpty st.modelRaw ≠ ""
  · rw [if_pos hm, getKey_cons, getKey_nil]
    by_cases hk : "model" = k
    · rw [if_pos hk, if_pos ⟨hm, hk.symm⟩]
    · rw [if_neg hk, if_neg (fun hh => hk hh.2.symm)]
  · rw [if_neg hm, if_neg (fun hh => hm hh.1)]
    rfl

theorem nodup_keys_body (st : FormState) :
    (((validateAndBuild st).body).map Prod.fst).Nodup := by
  have h0 : ((if trimOrEmpty st.modelRaw ≠ "" then
      ([("model", Json.str (trimOrEmpty st.modelRaw))] : List (String × Json))
      else []).map Prod.fst).Nodup := by
    by_cases hm : trimOrEmpty st.modelRaw ≠ "" <;> simp [hm]
  simp only [validateAndBuild]
  cases hex : (extraResult st.extraRaw).2 with
  | none => exact nodup_keys_assignAll _ _ h0
  | some e => exact nodup_keys_assignAll _ _ (nodup_keys_assignAll _ _ h0)

theorem getKey_body (st : FormState) (k : String) :
    getKey (validateAndBuild st).body k =
      firstSome
        (match extraPairs st with
         | some e => lookupLast e k
         | none => none)
        (firstSome (lookupLast (autoPairs st) k) (modelLookup st k)) := by
  simp only [validateAndBuild, extraPairs, autoPairs]
  cases hex : (extraResult st.extraRaw).2 with
  | none =>
    rw [getKey_assignAll, getKey_body0]
    rfl
  | some e =>
    rw [getKey_assignAll, getKey_assignAll, getKey_body0]

theorem getKey_merged (st : FormState) (k : String) :
    getKey (validateAndBuild st).merged k =
      firstSome (lookupLast (optionPairs st) k) (getKey (validateAndBuild st).body k) := by
  have hb := nodup_keys_body st
  show getKey (assignAll (assignAll [] (validateAndBuild st).body) (optionPairs st)) k = _
  rw [getKey_assignAll, getKey_assignAll, getKey_nil, firstSome_none_right,
    lookupLast_eq_getKey _ _ hb]

theorem validateAndBuild_errors (st : FormState) :
    (validateAndBuild st).errors =
      (processFields st.autoFields).1 ++ ((processFields st.optionFields).1 ++
        (rangeErrors (autoPairs st) ++ (extraResult st.extraRaw).1)) := by
  simp only [validateAndBuild, autoPairs]
  simp [List.append_assoc]

theorem validateAndBuild_ok (st : FormState) :
    (validateAndBuild st).ok = (validateAndBuild st).errors.isEmpty := rfl

theorem validateAndBuild_options (st : FormState) :
    (validateAndBuild st).options = optionPairs st := rfl

theorem mem_numBlock_iff (g : Option Json) (c : ℚ → Prop) [DecidablePred c] (msg s : String) :
    s ∈ numBlock g c msg ↔ (s = msg ∧ ∃ q, g = some (Json.num q) ∧ c q) := by
  unfold numBlock
  cases g with
  | none => simp
  | some v =>
    cases v with
    | null => simp
    | bool b => simp
    | num q =>
      by_cases hc : c q
      · simp only [hc, if_true, List.mem_singleton]
        constructor
        · intro h; exact ⟨h, q, rfl, hc⟩
        · intro h; exact h.1
      · simp only [hc, if_false, List.not_mem_nil, false_iff, not_and]
        intro _ h
        rcases h with ⟨q2, hq2, hcq2⟩
        have : q = q2 := by
          have := Option.some.inj hq2
          exact Json.num.inj this
        rw [← this] at hcq2
        exact hc hcq2
    | str s2 => simp
    | arr xs => simp
    | obj kvs => simp

theorem mem_logitBlock_iff (g : Option Json) (s : String) :
    s ∈ logitBlock g ↔
      (s = "logit_bias 必须是 JSON object（token_id → int）。" ∧
        ∃ v, g = some v ∧ isPlainObject v = false) := by
  unfold logitBlock
  cases g with
  | none => simp
  | some v =>
    show (s ∈ if isPlainObject v = true then ([] : List String)
        else ["logit_bias 必须是 JSON object（token_id → int）。"]) ↔ _
    cases hp : isPlainObject v with
    | true =>
      rw [if_pos rfl]
      constructor
      · intro h; exact absurd h (List.not_mem_nil s)
      · rintro ⟨_, v2, hv2, hpv2⟩
        rw [← Option.some.inj hv2, hp] at hpv2
        exact Bool.noConfusion hpv2
    | false =>
      rw [if_neg Bool.false_ne_true]
      simp only [List.mem_singleton]
      constructor
      · intro h; exact ⟨h, v, rfl, hp⟩
      · intro h; exact h.1

theorem firstSome_none_left (b : Option Json) : firstSome none b = b := rfl

theorem modelLookup_some (st : FormState) (k : String) (v : Json)
    (h : modelLookup st k = some v) : k = "model" ∧ trimOrEmpty st.modelRaw ≠ "" := by
  unfold modelLookup at h
  by_cases hc : trimOrEmpty st.modelRaw ≠ "" ∧ k = "model"
  · exact ⟨hc.2, hc.1⟩
  · rw [if_neg hc] at h
    exact Option.noConfusion h

theorem autoPairs_origin (st : FormState) (k : String) (w : Json)
    (h : lookupLast (autoPairs st) k = some w) :
    ∃ f, f ∈ st.autoFields ∧ f.name = k ∧
      ∃ u, coerceValue f.kind f.raw = Except.ok (some u) := by
  rcases foldl_stepField_origin st.autoFields [] [] k w h with hne | hex
  · exact absurd rfl hne
  · exact hex

theorem numBlock_msg_of_mem (g : Option Json) (c : ℚ → Prop) [DecidablePred c]
    (msg s : String) (h : s ∈ numBlock g c msg) : s = msg :=
  ((mem_numBlock_iff g c msg s).mp h).1

theorem logitBlock_msg_of_mem (g : Option Json) (s : String) (h : s ∈ logitBlock g) :
    s = "logit_bias 必须是 JSON object（token_id → int）。" :=
  ((mem_logitBlock_iff g s).mp h).1

theorem rangeErrors_mem_split (auto : List (String × Json)) (s : String) :
    s ∈ rangeErrors auto ↔
      s ∈ numBlock (getKey auto "temperature") (fun q => q < 0 ∨ q > 2)
          "temperature 范围为 0~2。" ∨
      s ∈ numBlock (getKey auto "top_p") (fun q => q < 0 ∨ q > 1) "top_p 范围为 0~1。" ∨
      s ∈ numBlock (getKey auto "presence_penalty") (fun q => q < -2 ∨ q > 2)
          "presence_penalty 范围为 -2~2。" ∨
      s ∈ numBlock (getKey auto "frequency_penalty") (fun q => q < -2 ∨ q > 2)
          "frequency_penalty 范围为 -2~2。" ∨
      s ∈ logitBlock (getKey auto "logit_bias") := by
  unfold rangeErrors
  simp [List.mem_append, or_assoc]

theorem bodyInner_origin (st : FormState) (k : String) (v : Json)
    (h : firstSome (lookupLast (autoPairs st) k) (modelLookup st k) = some v) :
    (k = "model" ∧ trimOrEmpty st.modelRaw ≠ "") ∨
      (∃ f, f ∈ st.autoFields ∧ f.name = k ∧
        ∃ w, coerceValue f.kind f.raw = Except.ok (some w)) := by
  cases hl : lookupLast (autoPairs st) k with
  | some w =>
    right
    exact autoPairs_origin st k w hl
  | none =>
    rw [hl, firstSome_none_left] at h
    left
    exact modelLookup_some st k v h

/-- Fixture: a form whose only rendered field is a stop textarea holding
two lines. -/
def stopStateAB : FormState :=
  ⟨"", "", [⟨"stop", Kind.stop_lines, false, RawValue.text "a\nb"⟩], []⟩

/-- Fixture: a form whose only rendered field is a stop textarea holding
one line. -/
def stopStateA : FormState :=
  ⟨"", "", [⟨"stop", Kind.stop_lines, false, RawValue.text "a"⟩], []⟩

/-- Fixture: a form whose only rendered field is a temperature float
input holding the given text. -/
def tempState (s : String) : FormState :=
  ⟨"", "", [⟨"temperature", Kind.float, false, RawValue.text s⟩], []⟩

/-- Fixture: a form with a logit_bias JSON textarea holding the given
text and a temperature float input holding 1. -/
def lbState (s : String) : FormState :=
  ⟨"", "",
    [⟨"logit_bias", Kind.json, false, RawValue.text s⟩,
     ⟨"temperature", Kind.float, false, RawValue.text "1"⟩], []⟩

/-- Fixture: extra set to an object binding foo to 1 while the body
field foo is independently set to 2. -/
def extraFooState : FormState :=
  ⟨"", "\x7b\"foo\":1\x7d", [⟨"foo", Kind.int, false, RawValue.text "2"⟩], []⟩

/-- Fixture: an out-of-range temperature entering only through extra. -/
def extraTempState : FormState := ⟨"", "\x7b\"temperature\":99\x7d", [], []⟩

/-- Fixture: an out-of-range temperature entering only through a
request-option field. -/
def optTempState : FormState :=
  ⟨"", "", [], [⟨"temperature", Kind.float, false, RawValue.text "99"⟩]⟩

/-- C6: stop_lines coercion splits the raw text on newlines, trims each
line and drops blank lines; zero remaining lines omit the key, one
yields the scalar string, several yield the ordered sequence.  The
conjuncts also check the two spec scenarios ("a"/"b" lines give the
array, one "a" line gives the scalar), that trimming and blank dropping
behave as stated, and that an empty textarea omits the key. -/
theorem c6_stop_lines_coercion :
    (∀ s : String,
      coerceValue Kind.stop_lines (RawValue.text s) =
        Except.ok
          (match ((splitLines s).map (fun x => trimOrEmpty x)).filter (fun x => x ≠ "") with
           | [] => none
           | [l] => some (Json.str l)
           | ls => some (Json.arr (ls.map Json.str)))) ∧
    getKey (validateAndBuild stopStateAB).merged "stop" =
      some (Json.arr [Json.str "a", Json.str "b"]) ∧
    getKey (validateAndBuild stopStateA).merged "stop" = some (Json.str "a") ∧
    ((splitLines " a \n\n b ").map (fun x => trimOrEmpty x)).filter (fun x => x ≠ "") =
      ["a", "b"] ∧
    coerceValue Kind.stop_lines (RawValue.text "") = Except.ok none := by
  refine ⟨fun _ => rfl, rfl, rfl, by decide, rfl⟩

/-- C8 as frozen is false on the code: a bool control's non-empty raw
value is compared only against "true", so any other non-empty string,
not just "false", is emitted as false.  Raw value "x" is emitted as
false although it is neither "", "true" nor "false". -/
theorem c8_counterexample :
    coerceValue Kind.bool (RawValue.text "x") = Except.ok (some (Json.bool false)) ∧
    ("x" : String) ≠ "" ∧ ("x" : String) ≠ "true" ∧ ("x" : String) ≠ "false" :=
  ⟨rfl, by decide, by decide, by decide⟩

/-- C8 amended: bool coercion maps the empty raw string to omitted, and
any non-empty raw string to an emitted boolean that is true exactly when
the string equals "true" (so "false" and every other non-empty string
yield false); on the three values the rendered select actually offers
("", "false", "true") this coincides with the claimed exact-match
table. -/
theorem c8_amended_bool_coercion :
    (∀ s : String,
      coerceValue Kind.bool (RawValue.text s) =
        Except.ok (if s = "" then none else some (Json.bool (s = "true")))) ∧
    boolSelectOptions = ["", "false", "true"] ∧
    coerceValue Kind.bool (RawValue.text "") = Except.ok none ∧
    coerceValue Kind.bool (RawValue.text "false") = Except.ok (some (Json.bool false)) ∧
    coerceValue Kind.bool (RawValue.text "true") = Except.ok (some (Json.bool true)) :=
  ⟨fun _ => rfl, rfl, rfl, rfl, rfl⟩

/-- C9: the validation pass is deterministic and reads the form without
mutating it: sync leaves the form controls unchanged, and running sync
again on the resulting UI state returns the identical UI state and
result, hence the same error list and byte-identical output text. -/
theorem c9_sync_idempotent :
    ∀ ui : UIState, (sync ui).1.form = ui.form ∧ sync (sync ui).1 = sync ui :=
  fun _ => ⟨rfl, rfl⟩

/-- C3: sync always writes the serialized merged document to the output
and display surfaces, errors outstanding or not, and the copy action
copies that serialized document exactly when the error list is empty,
otherwise it is refused and nothing is copied. -/
theorem c3_output_always_copy_gated :
    ∀ ui : UIState,
      (sync ui).1.outputText = stringifyVal (Json.obj (validateAndBuild ui.form).merged) ∧
      (sync ui).1.outputDisplay = prettyVal 0 (Json.obj (validateAndBuild ui.form).merged) ∧
      (copyOutput ui).2 =
        (if (validateAndBuild ui.form).errors.isEmpty then
          CopyOutcome.copied (stringifyVal (Json.obj (validateAndBuild ui.form).merged))
        else CopyOutcome.refused) := by
  intro ui
  refine ⟨rfl, rfl, ?_⟩
  simp only [copyOutput]
  cases h : (validateAndBuild ui.form).errors.isEmpty with
  | true =>
    have h2 : (sync ui).2.ok = true := h
    rw [if_pos h2, if_pos rfl]
    rfl
  | false =>
    have h2 : ¬((sync ui).2.ok = true) := by
      intro hh
      rw [show (sync ui).2.ok = (validateAndBuild ui.form).errors.isEmpty from rfl, h] at hh
      exact Bool.noConfusion hh
    rw [if_neg h2, if_neg Bool.false_ne_true]

/-- C10: the range and shape checks read only the body-field value
object, so when no body field is rendered the pass emits exactly the
option-field and extra errors and never a range error; concretely, an
out-of-range temperature of 99 entering through extra or through a
request-option field produces no error at all and appears in the final
document. -/
theorem c10_unchecked_paths :
    (∀ st : FormState, st.autoFields = [] →
      (validateAndBuild st).errors =
        (processFields st.optionFields).1 ++ (extraResult st.extraRaw).1) ∧
    ((validateAndBuild extraTempState).errors = [] ∧
      getKey (validateAndBuild extraTempState).merged "temperature" = some (Json.num 99) ∧
      (99 : ℚ) > 2) ∧
    ((validateAndBuild optTempState).errors = [] ∧
      getKey (validateAndBuild optTempState).merged "temperature" = some (Json.num 99)) := by
  refine ⟨?_, ⟨by decide, rfl, by decide⟩, ⟨by decide, rfl⟩⟩
  intro st h
  rw [validateAndBuild_errors]
  simp only [autoPairs, h]
  rfl

/-- C10 witness: the general part applied to the extra-only fixture. -/
theorem c10_witness :
    (validateAndBuild extraTempState).errors =
      (processFields extraTempState.optionFields).1 ++
        (extraResult extraTempState.extraRaw).1 :=
  c10_unchecked_paths.1 extraTempState rfl

/-- C5: for a temperature value present as a number in the body-field
object, the range error message is recorded exactly when the value is
below 0 or above 2, and analogously for top_p on the unit interval and
the two penalties on the interval from -2 to 2; at the boundaries 0 and
2 the pass accepts, while 2.0001 and -0.0001 produce exactly the stated
message. -/
theorem c5_numeric_range_checks :
    (∀ (auto : List (String × Json)) (q : ℚ),
      getKey auto "temperature" = some (Json.num q) →
      (("temperature 范围为 0~2。" ∈ rangeErrors auto) ↔ (q < 0 ∨ q > 2))) ∧
    (∀ (auto : List (String × Json)) (q : ℚ),
      getKey auto "top_p" = some (Json.num q) →
      (("top_p 范围为 0~1。" ∈ rangeErrors auto) ↔ (q < 0 ∨ q > 1))) ∧
    (∀ (auto : List (String × Json)) (q : ℚ),
      getKey auto "presence_penalty" = some (Json.num q) →
      (("presence_penalty 范围为 -2~2。" ∈ rangeErrors auto) ↔ (q < -2 ∨ q > 2))) ∧
    (∀ (auto : List (String × Json)) (q : ℚ),
      getKey auto "frequency_penalty" = some (Json.num q) →
      (("frequency_penalty 范围为 -2~2。" ∈ rangeErrors auto) ↔ (q < -2 ∨ q > 2))) ∧
    (validateAndBuild (tempState "0")).errors = [] ∧
    (validateAndBuild (tempState "2")).errors = [] ∧
    (validateAndBuild (tempState "2.0001")).errors = ["temperature 范围为 0~2。"] ∧
    (validateAndBuild (tempState "-0.0001")).errors = ["temperature 范围为 0~2。"] := by
  refine ⟨?_, ?_, ?_, ?_, by decide, by decide, by decide, by decide⟩
  · intro auto q h
    constructor
    · intro hm
      rcases (rangeErrors_mem_split auto _).mp hm with h1 | h1 | h1 | h1 | h1
      · rcases (mem_numBlock_iff _ _ _ _).mp h1 with ⟨_, q2, hq2, hc⟩
        rw [h] at hq2
        rw [Json.num.inj (Option.some.inj hq2)]
        exact hc
      · exact absurd (numBlock_msg_of_mem _ _ _ _ h1) (by decide)
      · exact absurd (numBlock_msg_of_mem _ _ _ _ h1) (by decide)
      · exact absurd (numBlock_msg_of_mem _ _ _ _ h1) (by decide)
      · exact absurd (logitBlock_msg_of_mem _ _ h1) (by decide)
    · intro hc
      exact (rangeErrors_mem_split auto _).mpr
        (Or.inl ((mem_numBlock_iff _ _ _ _).mpr ⟨rfl, q, h, hc⟩))
  · intro auto q h
    constructor
    · intro hm
      rcases (rangeErrors_mem_split auto _).mp hm with h1 | h1 | h1 | h1 | h1
      · exact absurd (numBlock_msg_of_mem _ _ _ _ h1) (by decide)
      · rcases (mem_numBlock_iff _ _ _ _).mp h1 with ⟨_, q2, hq2, hc⟩
        rw [h] at hq2
        rw [Json.num.inj (Option.some.inj hq2)]
        exact hc
      · exact absurd (numBlock_msg_of_mem _ _ _ _ h1) (by decide)
      · exact absurd (numBlock_msg_of_mem _ _ _ _ h1) (by decide)
      · exact absurd (logitBlock_msg_of_mem _ _ h1) (by decide)
    · intro hc
      exact (rangeErrors_mem_split auto _).mpr
        (Or.inr (Or.inl ((mem_numBlock_iff _ _ _ _).mpr ⟨rfl, q, h, hc⟩)))
  · intro auto q h
    constructor
    · intro hm
      rcases (rangeErrors_mem_split auto _).mp hm with h1 | h1 | h1 | h1 | h1
      · exact absurd (numBlock_msg_of_mem _ _ _ _ h1) (by decide)
      · exact absurd (numBlock_msg_of_mem _ _ _ _ h1) (by decide)
      · rcases (mem_numBlock_iff _ _ _ _).mp h1 with ⟨_, q2, hq2, hc⟩
        rw [h] at hq2
        rw [Json.num.inj (Option.some.inj hq2)]
        exact hc
      · exact absurd (numBlock_msg_of_mem _ _ _ _ h1) (by decide)
      · exact absurd (logitBlock_msg_of_mem _ _ h1) (by decide)
    · intro hc
      exact (rangeErrors_mem_split auto _).mpr
        (Or.inr (Or.inr (Or.inl ((mem_numBlock_iff _ _ _ _).mpr ⟨rfl, q, h, hc⟩))))
  · intro auto q h
    constructor
    · intro hm
      rcases (rangeErrors_mem_split auto _).mp hm with h1 | h1 | h1 | h1 | h1
      · exact absurd (numBlock_msg_of_mem _ _ _ _ h1) (by decide)
      · exact absurd (numBlock_msg_of_mem _ _ _ _ h1) (by decide)
      · exact absurd (numBlock_msg_of_mem _ _ _ _ h1) (by decide)
      · rcases (mem_numBlock_iff _ _ _ _).mp h1 with ⟨_, q2, hq2, hc⟩
        rw [h] at hq2
        rw [Json.num.inj (Option.some.inj hq2)]
        exact hc
      · exact absurd (logitBlock_msg_of_mem _ _ h1) (by decide)
    · intro hc
      exact (rangeErrors_mem_split auto _).mpr
        (Or.inr (Or.inr (Or.inr (Or.inl ((mem_numBlock_iff _ _ _ _).mpr ⟨rfl, q, h, hc⟩)))))

/-- C5 witness: the temperature equivalence applied to a concrete
out-of-range value object. -/
theorem c5_witness :
    ("temperature 范围为 0~2。" ∈ rangeErrors [("temperature", Json.num 3)]) ↔
      ((3 : ℚ) < 0 ∨ (3 : ℚ) > 2) :=
  c5_numeric_range_checks.1 [("temperature", Json.num 3)] 3 rfl

/-- C1: a blank control of any kind coerces to the omitted value with no
error; such a field contributes exactly the single required-field
message naming it when it is required (and nothing otherwise), the
pass's error list is exactly the concatenation of these per-field
contributions, a blank field's key is absent from the assembled
field-value object (under distinct rendered names), and conversely
every key of the built body comes from the non-empty model input, from
a field whose raw value coerced successfully to an emitted value, or
from a key of the parsed extra object. -/
theorem c1_blank_omitted_and_body_key_origin :
    (∀ (k : Kind) (r : RawValue), isBlank k r = true → coerceValue k r = Except.ok none) ∧
    (∀ f : Field, isBlank f.kind f.raw = true →
      fieldErrors f = if f.name ≠ "" ∧ f.required then [f.name ++ " 为必填字段。"] else []) ∧
    (∀ fs : List Field, (processFields fs).1 = (fs.map fieldErrors).flatten) ∧
    (∀ (fs : List Field) (f : Field), (fs.map Field.name).Nodup → f ∈ fs →
      isBlank f.kind f.raw = true → getKey (processFields fs).2 f.name = none) ∧
    (∀ (st : FormState) (k : String) (v : Json),
      getKey (validateAndBuild st).body k = some v →
      (k = "model" ∧ trimOrEmpty st.modelRaw ≠ "") ∨
      (∃ f, f ∈ st.autoFields ∧ f.name = k ∧
        ∃ w, coerceValue f.kind f.raw = Except.ok (some w)) ∨
      (∃ e, extraPairs st = some e ∧ k ∈ e.map Prod.fst)) := by
  refine ⟨coerceValue_blank, fieldErrors_blank, processFields_errors, ?_, ?_⟩
  · intro fs f hnd hmem hblank
    unfold processFields
    rw [foldl_stepField_getKey_none fs [] [] f.name ?_]
    · rfl
    · intro g hg hgname w heq
      have hgf : g = f := List.inj_on_of_nodup_map hnd hg hmem hgname
      rw [hgf, coerceValue_blank f.kind f.raw hblank] at heq
      exact Option.noConfusion (Except.ok.inj heq)
  · intro st k v h
    rw [getKey_body] at h
    cases hex : extraPairs st with
    | some e =>
      rw [hex] at h
      rw [show (match some e with
          | some e => lookupLast e k
          | none => (none : Option Json)) = lookupLast e k from rfl] at h
      cases hl : lookupLast e k with
      | some w =>
        exact Or.inr (Or.inr ⟨e, rfl, mem_keys_of_lookupLast_some e k w hl⟩)
      | none =>
        rw [hl, firstSome_none_left] at h
        rcases bodyInner_origin st k v h with h1 | h1
        · exact Or.inl h1
        · exact Or.inr (Or.inl h1)
    | none =>
      rw [hex] at h
      rw [show (match (none : Option (List (String × Json))) with
        | some e => lookupLast e k
        | none => (none : Option Json)) = (none : Option Json) from rfl,
        firstSome_none_left] at h
      rcases bodyInner_origin st k v h with h1 | h1
      · exact Or.inl h1
      · exact Or.inr (Or.inl h1)

/-- C1 witness: the key-absence part applied to a blank float field. -/
theorem c1_witness :
    getKey (processFields [⟨"temperature", Kind.float, false, RawValue.text "  "⟩]).2
      "temperature" = none :=
  c1_blank_omitted_and_body_key_origin.2.2.2.1
    [⟨"temperature", Kind.float, false, RawValue.text "  "⟩]
    ⟨"temperature", Kind.float, false, RawValue.text "  "⟩
    (by decide) (List.mem_singleton.mpr rfl) (by decide)

/-- C2: a key of the final document resolves with the exact precedence
the spec states: a request-option value wins over a key of the parsed
extra object, which wins over a coerced body-field value, which wins
over the model entry contributed by a non-empty model input; on the
concrete scenario, extra foo equal to 1 overrides the body field foo
set to 2, in the body object itself and in the final document. -/
theorem c2_composition_precedence :
    (∀ (st : FormState) (k : String),
      getKey (validateAndBuild st).merged k =
        firstSome (getKey (optionPairs st) k)
          (firstSome
            (match extraPairs st with
             | some e => lookupLast e k
             | none => none)
            (firstSome (getKey (autoPairs st) k) (modelLookup st k)))) ∧
    getKey (validateAndBuild extraFooState).merged "foo" = some (Json.num 1) ∧
    (validateAndBuild extraFooState).body = [("foo", Json.num 1)] := by
  refine ⟨?_, rfl, rfl⟩
  intro st k
  rw [getKey_merged, getKey_body]
  have h1 : lookupLast (optionPairs st) k = getKey (optionPairs st) k :=
    lookupLast_eq_getKey _ _ (processFields_nodup st.optionFields)
  have h2 : lookupLast (autoPairs st) k = getKey (autoPairs st) k :=
    lookupLast_eq_getKey _ _ (processFields_nodup st.autoFields)
  rw [h1, h2]

/-- C4 as frozen is false on the code: with logit_bias holding the JSON
array text [1,2] (and a valid temperature of 1), the pass does record
the shape error, whose text contains the claimed fragment, and the
other valid field does appear, but the key logit_bias is present in the
output document with the parsed array value, not absent. -/
theorem c4_counterexample :
    ("logit_bias 必须是 JSON object（token_id → int）。" ∈
      (validateAndBuild (lbState "[1,2]")).errors) ∧
    hasSub "logit_bias 必须是 JSON object（token_id → int）。".data
      "logit_bias 必须是 JSON object".data = true ∧
    getKey (validateAndBuild (lbState "[1,2]")).merged "logit_bias" =
      some (Json.arr [Json.num 1, Json.num 2]) ∧
    getKey (validateAndBuild (lbState "[1,2]")).merged "temperature" =
      some (Json.num 1) :=
  ⟨by decide, by decide, rfl, rfl⟩

/-- C4 amended: when the logit_bias body field coerces to a JSON array,
the pass records the error containing "logit_bias 必须是 JSON object",
and (when no request option or extra key shadows it) every
successfully-coerced body-field value, the out-of-shape logit_bias
array included, still appears in the final document: the shape check
only pushes a message and never removes the value. -/
theorem c4_amended_shape_error_value_kept :
    ∀ (st : FormState) (xs : List Json),
      getKey (autoPairs st) "logit_bias" = some (Json.arr xs) →
      ("logit_bias 必须是 JSON object（token_id → int）。" ∈ (validateAndBuild st).errors) ∧
      (optionPairs st = [] → extraPairs st = none →
        ∀ (k : String) (w : Json), getKey (autoPairs st) k = some w →
          getKey (validateAndBuild st).merged k = some w) := by
  intro st xs h
  constructor
  · rw [validateAndBuild_errors]
    refine List.mem_append.mpr (Or.inr (List.mem_append.mpr (Or.inr
      (List.mem_append.mpr (Or.inl ?_)))))
    exact (rangeErrors_mem_split _ _).mpr
      (Or.inr (Or.inr (Or.inr (Or.inr
        ((mem_logitBlock_iff _ _).mpr ⟨rfl, Json.arr xs, h, rfl⟩)))))
  · intro hop hex k w hk
    rw [getKey_merged, getKey_body, hop, hex, lookupLast_nil, firstSome_none_left,
      show (match (none : Option (List (String × Json))) with
        | some e => lookupLast e k
        | none => (none : Option Json)) = (none : Option Json) from rfl,
      firstSome_none_left,
      lookupLast_eq_getKey (autoPairs st) k (processFields_nodup st.autoFields), hk]
    rfl

/-- C4 amended witness: the amended statement applied to the concrete
array fixture. -/
theorem c4_amended_witness :
    "logit_bias 必须是 JSON object（token_id → int）。" ∈
      (validateAndBuild (lbState "[1,2]")).errors :=
  (c4_amended_shape_error_value_kept (lbState "[1,2]") [Json.num 1, Json.num 2] rfl).1

/-- Counterexample field for C7: the description carries an enumeration
cue and two backticked tokens, the type is string-like, yet the
classifier yields the free-text kind because the two tokens coincide
and the code requires at least two distinct tokens. -/
def c7Field : SdkField := ⟨"x", "str", false, "Possible values are `aa` and `aa`."⟩

/-- C7 as frozen is false on the code: a string-like field whose
description contains an enumeration cue plus two backticked tokens is
classified string, not string_select, when the tokens are duplicates:
the code deduplicates and demands two distinct tokens (each of at most
32 characters). -/
theorem c7_counterexample :
    looksLikeEnum c7Field.description = true ∧
    (backtickTokens c7Field.description).length ≥ 2 ∧
    isStringType c7Field.type = true ∧
    c7Field.name ≠ "stop" ∧
    fieldKind c7Field = Kind.string :=
  ⟨rfl, by decide, rfl, by decide, rfl⟩

/-- C7 amended: the classifier is the stated first-match-wins cascade
(purity and totality are immediate since it is a function into the
eight-kind type), with the select condition corrected: a string-like
field becomes a constrained select exactly when the description has an
enumeration cue and at least two distinct backticked tokens of at most
32 characters each, and free text otherwise. -/
theorem c7_amended_classifier_cascade :
    (∀ f : SdkField,
      (f.name = "stop" → fieldKind f = Kind.stop_lines) ∧
      (f.name ≠ "stop" → hasListLiteral f.type = true → fieldKind f = Kind.checks) ∧
      (f.name ≠ "stop" → hasListLiteral f.type = false → isBoolType f.type = true →
        fieldKind f = Kind.bool) ∧
      (f.name ≠ "stop" → hasListLiteral f.type = false → isBoolType f.type = false →
        isIntType f.type = true → fieldKind f = Kind.int) ∧
      (f.name ≠ "stop" → hasListLiteral f.type = false → isBoolType f.type = false →
        isIntType f.type = false → isFloatType f.type = true → fieldKind f = Kind.float) ∧
      (f.name ≠ "stop" → hasListLiteral f.type = false → isBoolType f.type = false →
        isIntType f.type = false → isFloatType f.type = false → isStringType f.type = true →
        fieldKind f =
          (if (parseBacktickedOptionsFromDescription f.description).isSome then
            Kind.string_select else Kind.string)) ∧
      (f.name ≠ "stop" → hasListLiteral f.type = false → isBoolType f.type = false →
        isIntType f.type = false → isFloatType f.type = false → isStringType f.type = false →
        fieldKind f = Kind.json)) ∧
    (∀ d : String,
      (parseBacktickedOptionsFromDescription d).isSome =
        (looksLikeEnum d &&
          decide (2 ≤ (dedupKeepFirst ((backtickTokens d).filter
            (fun s => (!s.isEmpty) && decide (s.length ≤ 32)))).length))) := by
  constructor
  · intro f
    have nb : ∀ {b : Bool}, b = false → ¬(b = true) := by
      intro b hb ht
      rw [hb] at ht
      exact Bool.noConfusion ht
    have hfk : fieldKind f =
        (if f.name = "stop" then Kind.stop_lines
         else if hasListLiteral f.type = true then Kind.checks
         else if isBoolType f.type = true then Kind.bool
         else if isIntType f.type = true then Kind.int
         else if isFloatType f.type = true then Kind.float
         else if isStringType f.type = true then
           (if (parseBacktickedOptionsFromDescription f.description).isSome then
             Kind.string_select else Kind.string)
         else Kind.json) := rfl
    refine ⟨?_, ?_, ?_, ?_, ?_, ?_, ?_⟩
    · intro h1
      rw [hfk, if_pos h1]
    · intro h1 h2
      rw [hfk, if_neg h1, if_pos h2]
    · intro h1 h2 h3
      rw [hfk, if_neg h1, if_neg (nb h2), if_pos h3]
    · intro h1 h2 h3 h4
      rw [hfk, if_neg h1, if_neg (nb h2), if_neg (nb h3), if_pos h4]
    · intro h1 h2 h3 h4 h5
      rw [hfk, if_neg h1, if_neg (nb h2), if_neg (nb h3), if_neg (nb h4), if_pos h5]
    · intro h1 h2 h3 h4 h5 h6
      rw [hfk, if_neg h1, if_neg (nb h2), if_neg (nb h3), if_neg (nb h4), if_neg (nb h5),
        if_pos h6]
    · intro h1 h2 h3 h4 h5 h6
      rw [hfk, if_neg h1, if_neg (nb h2), if_neg (nb h3), if_neg (nb h4), if_neg (nb h5),
        if_neg (nb h6)]
  · intro d
    unfold parseBacktickedOptionsFromDescription
    cases hle : looksLikeEnum d with
    | true =>
      rw [if_pos rfl]
      by_cases h2 : (dedupKeepFirst ((backtickTokens d).filter
          (fun s => (!s.isEmpty) && decide (s.length ≤ 32)))).length ≥ 2
      · rw [if_pos h2]
        simp [h2]
      · rw [if_neg h2]
        simp [h2]
    | false =>
      rw [if_neg Bool.false_ne_true]
      simp

/-- C7 amended witness: the int stage of the cascade applied to a
concrete optional-integer field. -/
theorem c7_amended_witness :
    fieldKind ⟨"n", "Optional[int]", false, ""⟩ = Kind.int :=
  ((c7_amended_classifier_cascade.1 ⟨"n", "Optional[int]", false, ""⟩).2.2.2.1)
    (by decide) (by decide) (by decide) (by decide)

end ChatCreate
